import Mathlib

/-!
Shallow embedding of the `dasture` crate (src/lib.rs): a reference-counted
copy-on-write array block (`CoWecBlock`), its `RCell` u16 reference counter,
and the tagged one-word handle (`CoWec`).

Machine integers are modelled as `Nat` with explicit `% 2 ^ 16` where the
u16 arithmetic can wrap.  The payload allocation is modelled as a
`List (Option T)`: a slot holds `some v` when initialized and `none` when
it is still `MaybeUninit` garbage.  Fallible or panicking paths return
`Option`.
-/

/-! ## RCell: the non-atomic u16 reference counter (src/lib.rs lines 19-45).

The cell state is its u16 value, modelled as a `Nat` below `2 ^ 16`.
Each operation returns the `bool` result of the Rust method together with
the new cell value.  -/

namespace RCell

/-- `Default for RCell`: the counter starts at 1, not 0 (line 25). -/
def init : Nat := 1

/-- `RCell::dec_ref`: stores `old - 1` (u16 wrapping subtraction in release
builds) and returns `old == 1` (lines 30-34). -/
def dec_ref (old : Nat) : Bool × Nat :=
  (old == 1, (old + 65535) % 65536)

/-- `RCell::inc_ref`: if the counter is at `u16::MAX` it is left unchanged
and `false` is returned, otherwise it is incremented and `true` is
returned (lines 36-44). -/
def inc_ref (old : Nat) : Bool × Nat :=
  if old == 65535 then (false, old) else (true, old + 1)

end RCell

/-! ## CoWecBlock: header plus payload (src/lib.rs lines 56-230).

The `len` field is the packed u16: low 12 bits are the used length, high
4 bits are the capacity class (0 = "tight", `i` = `2 ^ i` slots).  The
`data` field stands for the trailing allocation: one entry per allocated
slot. -/

structure CoWecBlock (T : Type) where
  /-- The reference count (an `RCell` value, as created by `R::default()`). -/
  rcell : Nat
  /-- The packed u16 length/capacity field. -/
  len : Nat
  /-- The payload slots of the allocation; `none` is an uninitialized slot. -/
  data : List (Option T)
deriving DecidableEq

namespace CoWecBlock

/-- `Self::LEN_MASK = 0b0000_1111_1111_1111` (line 80). -/
def LEN_MASK : Nat := 4095

/-- `Self::CAP_OFFSET = 12` (line 81). -/
def CAP_OFFSET : Nat := 12

/-- The u16 complement `!Self::LEN_MASK` used in `insert` (line 201). -/
def NOT_LEN_MASK : Nat := 61440

/-- `CoWecBlock::len()`: the low 12 bits of the packed field (lines 84-86).
Named `length` because the Lean field `len` takes the Rust field's name. -/
def length (b : CoWecBlock T) : Nat := b.len &&& LEN_MASK

/-- `CoWecBlock::capacity()` (lines 88-95): high 4 bits; class 0 is "tight"
(capacity = current length), class `i` means `2 ^ i` slots. -/
def capacity (b : CoWecBlock T) : Nat :=
  let cap := b.len >>> CAP_OFFSET
  if cap = 0 then b.length else 2 ^ cap

/-- Helper for `trailing_zeros`: count low zero bits with explicit fuel
(64 bits, matching `usize::trailing_zeros` on a 64-bit target). -/
def tzAux : Nat → Nat → Nat
  | _, 0 => 0
  | n, fuel + 1 => if n % 2 = 1 then 0 else tzAux (n / 2) fuel + 1

/-- `usize::trailing_zeros`, used by `create`/`resize` to turn a
power-of-two capacity into its exponent. -/
def trailing_zeros (n : Nat) : Nat := tzAux n 64

/-- `CoWecBlock::create(capacity)` (lines 149-168): counter from
`R::default()`, packed field `cap_encoded << CAP_OFFSET` where
`cap_encoded = capacity.trailing_zeros() as u16` (the shift wraps in u16),
and a fresh allocation of `capacity` uninitialized slots. -/
def create (T : Type) (capacity : Nat) : CoWecBlock T :=
  let cap_encoded := trailing_zeros capacity % 65536
  { rcell := RCell.init
    len := (cap_encoded <<< CAP_OFFSET) % 65536
    data := List.replicate capacity none }

/-- `CoWecBlock::resize(me, new_cap)` (lines 170-188): reallocates to
`new_cap` slots (`realloc` keeps the common prefix, new slots are
uninitialized) and splices the new capacity class into the packed field,
keeping the length bits. -/
def resize (b : CoWecBlock T) (new_cap : Nat) : CoWecBlock T :=
  let cap_encoded := trailing_zeros new_cap % 65536
  { rcell := b.rcell
    len := (b.len &&& LEN_MASK) ||| ((cap_encoded <<< CAP_OFFSET) % 65536)
    data := b.data.take new_cap ++ List.replicate (new_cap - b.data.length) none }

/-- `ptr::copy(data.add(src), data.add(dst), n)`: overlapping-safe copy of
`n` slots from index `src` to index `dst` inside one allocation. -/
def listCopy (data : List α) (src dst n : Nat) : List α :=
  data.take dst ++ (data.drop src).take n ++ data.drop (dst + n)

/-- `CoWecBlock::insert(me, pos, val)` (lines 190-202): shift the
`len() - pos` slots starting at `pos` one slot right, write `val` at
`pos`, and store `len() + 1` in the length bits (the addition cannot wrap
u16 since `len() <= 4095`). -/
def insert (b : CoWecBlock T) (pos : Nat) (val : T) : CoWecBlock T :=
  let new_len := b.length + 1
  let shifted := listCopy b.data pos (pos + 1) (b.length - pos)
  { rcell := b.rcell
    len := (b.len &&& NOT_LEN_MASK) ||| new_len
    data := shifted.set pos (some val) }

/-- `CoWecBlock::remove(me, pos)` (lines 204-213): read the slot at `pos`
out, shift the `len() - pos - 1` following slots one left, and decrement
the whole packed field (u16 wrapping; the length bits are nonzero under
the documented precondition, so the capacity bits are untouched). -/
def remove (b : CoWecBlock T) (pos : Nat) : Option T × CoWecBlock T :=
  let elem := b.data.getD pos none
  let data1 := listCopy b.data (pos + 1) pos (b.length - pos - 1)
  (elem, { rcell := b.rcell
           len := (b.len + 65535) % 65536
           data := data1 })

/-- `CoWecBlock::get(me, pos)` (lines 215-221): read the slot at `pos`. -/
def get (b : CoWecBlock T) (pos : Nat) : Option T := b.data.getD pos none

/-- The abstract content of a block: its first `len()` slots. -/
def model (b : CoWecBlock T) : List (Option T) := b.data.take b.length

/-- Observable effects of `CoWecBlock::dispose` (lines 118-131). -/
structure DisposeEffect where
  /-- `ptr::drop_in_place(&mut me_ref.rcell)` ran. -/
  counterDestroyed : Bool
  /-- The slot indices on which `ptr::drop_in_place` ran (in order), for an
  element type with a destructor (`mem::needs_drop`); for a type without
  one the loop is skipped as a pure optimization. -/
  droppedSlots : List Nat
  /-- `dealloc(me.cast(), layout)` ran. -/
  deallocated : Bool
deriving DecidableEq

/-- `CoWecBlock::dispose(me)` (lines 118-131): destroy the counter, drop
the slots `0..len()`, release the allocation. -/
def dispose (b : CoWecBlock T) : DisposeEffect :=
  { counterDestroyed := true
    droppedSlots := List.range b.length
    deallocated := true }

end CoWecBlock

/-! ## CoWec: the tagged one-word handle (src/lib.rs lines 232-318).

A handle is its raw `usize` value: 0 is the stub, an even nonzero value
is the address of a left block, an odd value is a right block's address
plus one.  Blocks are `repr(align(2))` and `alloc` never returns null
(`handle_alloc_error` aborts), so a block address is always even and
nonzero.

For `clone`/`drop` only the target block's counter and liveness matter,
so the pointed-to block is modelled by a `HeapCell` carrying its `RCell`
value and whether `dispose` has run on it. -/

namespace CoWec

/-- `CoWec::is_stub` (lines 272-274). -/
def is_stub (p : Nat) : Bool := p == 0

/-- `CoWec::is_left` (lines 276-278). -/
def is_left (p : Nat) : Bool := p % 2 == 0 && !(is_stub p)

/-- `CoWec::is_right` (lines 280-282). -/
def is_right (p : Nat) : Bool := !(is_left p) && !(is_stub p)

/-- `CoWec::new_stub` (lines 246-252): the zero value. -/
def new_stub : Nat := 0

/-- `CoWec::new_left` (lines 254-261): the address of the fresh
`CoWecBlock::create(2)` allocation, stored untagged.  `addr` stands for
the allocator's return value: nonzero and 2-aligned. -/
def new_left (addr : Nat) : Nat := addr

/-- `CoWec::new_right` (lines 263-270): the fresh block's address plus 1. -/
def new_right (addr : Nat) : Nat := addr + 1

/-- The state of the one block a non-stub handle points at. -/
structure HeapCell where
  /-- The block's `RCell` counter value. -/
  rcell : Nat
  /-- Whether `CoWecBlock::dispose` has released the allocation. -/
  freed : Bool
deriving DecidableEq

/-- `CoWecBlock::inc_ref(me)` (lines 140-147): on a successful counter
increment the same pointer `me` comes back; on a saturated counter the
code hits `unimplemented!("Make an internal copy")`, modelled as `none`. -/
def block_inc_ref (addr : Nat) (h : HeapCell) : Option (Nat × HeapCell) :=
  let r := RCell.inc_ref h.rcell
  if r.1 then some (addr, { h with rcell := r.2 }) else none

/-- `CoWecBlock::dec_ref(me)` (lines 133-138): decrement, and dispose the
block exactly when `RCell::dec_ref` returned true. -/
def block_dec_ref (h : HeapCell) : HeapCell :=
  let r := RCell.dec_ref h.rcell
  { rcell := r.2, freed := h.freed || r.1 }

/-- `impl Clone for CoWec` (lines 285-305): left handles increment through
the pointer as-is, right handles untag (-1), increment, retag (+1), stubs
copy the zero value.  `none` is the `unimplemented!` panic inside
`inc_ref`. -/
def cloneCoWec (p : Nat) (h : HeapCell) : Option (Nat × HeapCell) :=
  if is_left p then
    (block_inc_ref p h).map (fun ah => (ah.1, ah.2))
  else if is_right p then
    (block_inc_ref (p - 1) h).map (fun ah => (ah.1 + 1, ah.2))
  else
    some (0, h)

/-- `impl Drop for CoWec` (lines 307-318): non-stub handles call
`dec_ref` on the untagged pointer; stubs do nothing. -/
def dropCoWec (p : Nat) (h : HeapCell) : HeapCell :=
  if is_left p then block_dec_ref h
  else if is_right p then block_dec_ref h
  else h

/-- A clone-or-drop event on some live handle of one shared block. -/
inductive AliasOp where
  | clone
  | drop
deriving DecidableEq

/-- One block together with the number of live handles referencing it.
`live` is ghost bookkeeping (the program state holds the handles); the
block itself only stores `rcell`. -/
structure AliasState where
  /-- The block's `RCell` counter value. -/
  rcell : Nat
  /-- How many live handles currently reference the block. -/
  live : Nat
  /-- Whether the backing allocation has been released. -/
  freed : Bool
deriving DecidableEq

/-- One clone/drop event.  An event needs a live handle to act on
(`live ≠ 0`); a clone of a saturated block hits the `unimplemented!`
panic (`none`); a drop runs `dec_ref` and disposes exactly when the
counter hits zero. -/
def aliasStep (s : AliasState) : AliasOp → Option AliasState
  | .clone =>
    if s.live = 0 then none
    else
      let r := RCell.inc_ref s.rcell
      if r.1 then some { rcell := r.2, live := s.live + 1, freed := s.freed }
      else none
  | .drop =>
    if s.live = 0 then none
    else
      let r := RCell.dec_ref s.rcell
      some { rcell := r.2, live := s.live - 1, freed := s.freed || r.1 }

/-- Run a sequence of clone/drop events. -/
def runAlias (s : AliasState) : List AliasOp → Option AliasState
  | [] => some s
  | op :: rest =>
    match aliasStep s op with
    | some s1 => runAlias s1 rest
    | none => none

/-- The state right after `new_left`/`new_right`: `create` set the counter
to 1 and the creating handle is the single live reference. -/
def initAlias : AliasState := { rcell := 1, live := 1, freed := false }

end CoWec

/-! ## Arithmetic of the packed u16 length/capacity field -/

theorem land_mask_eq_mod (x n : Nat) : x &&& (2 ^ n - 1) = x % 2 ^ n := by
  apply Nat.eq_of_testBit_eq
  intro i
  simp [Bool.and_comm]

theorem land_4095_eq_mod (x : Nat) : x &&& 4095 = x % 4096 := by
  have h := land_mask_eq_mod x 12
  norm_num at h
  exact h

theorem shiftRight_lor (x y s : Nat) : (x ||| y) >>> s = (x >>> s) ||| (y >>> s) := by
  apply Nat.eq_of_testBit_eq
  intro i
  simp

theorem shiftRight_land (x y s : Nat) : (x &&& y) >>> s = (x >>> s) &&& (y >>> s) := by
  apply Nat.eq_of_testBit_eq
  intro i
  simp

theorem tzAux_two_pow : ∀ (k fuel : Nat), k < fuel → CoWecBlock.tzAux (2 ^ k) fuel = k
  | 0, fuel + 1, _ => by simp [CoWecBlock.tzAux]
  | k + 1, fuel + 1, h => by
    have h2 : 2 ^ (k + 1) % 2 = 0 := by
      simp [Nat.pow_succ, Nat.mul_mod_left]
    have h3 : 2 ^ (k + 1) / 2 = 2 ^ k := by
      rw [Nat.pow_succ, Nat.mul_div_cancel _ (by omega : 0 < 2)]
    simp [CoWecBlock.tzAux, h2, h3,
      tzAux_two_pow k fuel (Nat.lt_of_succ_lt_succ h)]

theorem trailing_zeros_two_pow (k : Nat) (h : k < 64) :
    CoWecBlock.trailing_zeros (2 ^ k) = k :=
  tzAux_two_pow k 64 h

namespace CoWecBlock

theorem length_eq_mod (b : CoWecBlock T) : b.length = b.len % 4096 :=
  land_4095_eq_mod b.len

theorem capBits_eq_div (b : CoWecBlock T) : b.len >>> CAP_OFFSET = b.len / 4096 := by
  rw [CAP_OFFSET, Nat.shiftRight_eq_div_pow]

theorem create_len (T : Type) (k : Nat) (hk : k ≤ 15) :
    (create T (2 ^ k)).len = k * 4096 := by
  simp only [create, trailing_zeros_two_pow k (by omega)]
  rw [Nat.mod_eq_of_lt (by omega : k < 65536), CAP_OFFSET, Nat.shiftLeft_eq]
  norm_num
  omega

/-- What `create` produces for the capacity classes 1..15 that the
`debug_assert_eq` checks in `create` accept. -/
theorem create_spec (T : Type) (k : Nat) (hk1 : 1 ≤ k) (hk2 : k ≤ 15) :
    (create T (2 ^ k)).length = 0 ∧
    (create T (2 ^ k)).capacity = 2 ^ k ∧
    (create T (2 ^ k)).rcell = 1 ∧
    (create T (2 ^ k)).data.length = 2 ^ k ∧
    (create T (2 ^ k)).len < 65536 := by
  have hlen := create_len T k hk2
  have hl : (create T (2 ^ k)).length = 0 := by
    rw [length_eq_mod, hlen]
    omega
  refine ⟨hl, ?_, rfl, by simp [create], by omega⟩
  rw [capacity, capBits_eq_div, hlen]
  have : k * 4096 / 4096 = k := by omega
  rw [this, if_neg (by omega : ¬ k = 0)]

theorem lor_low_high_mod (a k : Nat) (ha : a < 4096) :
    (a ||| k * 4096) % 4096 = a := by
  rw [← land_4095_eq_mod, Nat.and_distrib_right, land_4095_eq_mod, land_4095_eq_mod,
    Nat.mod_eq_of_lt ha, Nat.mul_mod_left]
  simp

theorem lor_low_high_div (a k : Nat) (ha : a < 4096) :
    (a ||| k * 4096) / 4096 = k := by
  have e : (4096 : Nat) = 2 ^ 12 := by norm_num
  rw [e, ← Nat.shiftRight_eq_div_pow, shiftRight_lor,
    Nat.shiftRight_eq_div_pow, Nat.shiftRight_eq_div_pow, ← e]
  rw [Nat.div_eq_of_lt ha, Nat.mul_div_cancel _ (by omega : 0 < 4096)]
  simp

theorem resize_len_eq (b : CoWecBlock T) (k : Nat) (hk : k ≤ 15) :
    (b.resize (2 ^ k)).len = (b.len % 4096) ||| (k * 4096) := by
  simp only [resize, trailing_zeros_two_pow k (by omega), land_4095_eq_mod, LEN_MASK,
    CAP_OFFSET, Nat.shiftLeft_eq]
  rw [Nat.mod_eq_of_lt (by omega : k < 65536)]
  norm_num
  rw [Nat.mod_eq_of_lt (by omega : k * 4096 < 65536)]

/-- What `resize` produces for the capacity classes 1..15 that the
`debug_assert_eq` checks in `resize` accept: capacity becomes exactly the
request, length and live slots are untouched. -/
theorem resize_spec (b : CoWecBlock T) (k : Nat) (hk1 : 1 ≤ k) (hk2 : k ≤ 15)
    (hge : b.length ≤ 2 ^ k) (hdata : b.length ≤ b.data.length) :
    (b.resize (2 ^ k)).capacity = 2 ^ k ∧
    (b.resize (2 ^ k)).length = b.length ∧
    (b.resize (2 ^ k)).model = b.model ∧
    (b.resize (2 ^ k)).data.length = 2 ^ k ∧
    (b.resize (2 ^ k)).len < 65536 := by
  have ha : b.len % 4096 < 4096 := by omega
  have hlen := resize_len_eq b k hk2
  have hlength : (b.resize (2 ^ k)).length = b.length := by
    rw [length_eq_mod, hlen, lor_low_high_mod _ _ ha, length_eq_mod]
  have hcap : (b.resize (2 ^ k)).capacity = 2 ^ k := by
    rw [capacity, capBits_eq_div, hlen, lor_low_high_div _ _ ha,
      if_neg (by omega : ¬ k = 0)]
  have hdlen : (b.resize (2 ^ k)).data.length = 2 ^ k := by
    simp only [resize, List.length_append, List.length_take, List.length_replicate]
    omega
  refine ⟨hcap, hlength, ?_, hdlen, ?_⟩
  · rw [model, model, hlength]
    show (b.data.take (2 ^ k) ++ List.replicate (2 ^ k - b.data.length) none).take b.length
      = b.data.take b.length
    rw [List.take_append_of_le_length (by simp [List.length_take]; omega),
      List.take_take, Nat.min_eq_left hge]
  · have hb : b.len % 4096 < 2 ^ 16 := by omega
    have hk4 : k * 4096 < 2 ^ 16 := by omega
    have := Nat.or_lt_two_pow hb hk4
    omega

theorem testBit_61440 (i : Nat) :
    Nat.testBit 61440 i = (decide (12 ≤ i) && decide (i - 12 < 4)) := by
  have e : (61440 : Nat) = (2 ^ 4 - 1) <<< 12 := by decide
  rw [e, Nat.testBit_shiftLeft, Nat.testBit_two_pow_sub_one]

theorem land_61440_eq (x : Nat) : x &&& 61440 = (x >>> 12) % 16 * 4096 := by
  have e2 : (x >>> 12) % 16 * 4096 = ((x >>> 12) % 2 ^ 4) <<< 12 := by
    rw [Nat.shiftLeft_eq]
    norm_num
  rw [e2]
  apply Nat.eq_of_testBit_eq
  intro i
  rw [Nat.testBit_and, testBit_61440, Nat.testBit_shiftLeft, Nat.testBit_mod_two_pow,
    Nat.testBit_shiftRight]
  by_cases h12 : 12 ≤ i
  · rw [Nat.add_sub_cancel' h12]
    simp [h12, Bool.and_comm, Bool.and_left_comm]
  · simp [h12]

theorem insert_len_eq (b : CoWecBlock T) (pos : Nat) (val : T) (hx : b.len < 65536) :
    (b.insert pos val).len = (b.length + 1) ||| (b.len / 4096 * 4096) := by
  have ediv : b.len >>> 12 = b.len / 4096 := by
    rw [Nat.shiftRight_eq_div_pow]
  have hm : b.len / 4096 % 16 = b.len / 4096 := Nat.mod_eq_of_lt (by omega)
  simp only [insert, NOT_LEN_MASK, land_61440_eq, ediv, hm]
  exact Nat.or_comm _ _

/-- `List.insertIdx` inside bounds is "take, the new element, drop". -/
theorem insertIdx_take_cons_drop (x : α) :
    ∀ (n : Nat) (l : List α), n ≤ l.length →
      l.insertIdx n x = l.take n ++ x :: l.drop n
  | 0, l, _ => by simp
  | n + 1, [], h => by simp at h
  | n + 1, a :: l, h => by
    simp only [List.insertIdx_succ_cons, List.take_succ_cons, List.drop_succ_cons,
      List.cons_append]
    rw [insertIdx_take_cons_drop x n l (by simpa using h)]

/-- The slot-level effect of `insert` under the preconditions that the
`debug_assert` lines in `insert` check: the length bits go up by one and
the live prefix gains `val` at index `pos`, everything after shifted one
slot right. -/
theorem insert_spec (b : CoWecBlock T) (pos : Nat) (val : T)
    (hpos : pos ≤ b.length) (henc : b.length < 4095)
    (hdata : b.length < b.data.length) (hx : b.len < 65536) :
    (b.insert pos val).length = b.length + 1 ∧
    (b.insert pos val).model = b.model.insertIdx pos (some val) ∧
    (b.insert pos val).data.length = b.data.length ∧
    (b.insert pos val).len < 65536 := by
  have hL : b.length < 4096 := by omega
  have hlen := insert_len_eq b pos val hx
  have hlength : (b.insert pos val).length = b.length + 1 := by
    rw [length_eq_mod, hlen, lor_low_high_mod _ _ (by omega)]
  have htake1 : (b.data.take (pos + 1)).length = pos + 1 :=
    List.length_take_of_le (by omega)
  have hcopylen :
      (listCopy b.data pos (pos + 1) (b.length - pos)).length = b.data.length := by
    simp only [listCopy, List.length_append, List.length_take, List.length_drop]
    omega
  have hdata1 : (b.insert pos val).data.length = b.data.length := by
    simp only [insert, List.length_set]
    exact hcopylen
  have hbound : (b.insert pos val).len < 65536 := by
    rw [hlen]
    have h1 : b.length + 1 < 2 ^ 16 := by omega
    have h2 : b.len / 4096 * 4096 < 2 ^ 16 := by omega
    have h3 := Nat.or_lt_two_pow h1 h2
    omega
  refine ⟨hlength, ?_, hdata1, hbound⟩
  have hTpos : (listCopy b.data pos (pos + 1) (b.length - pos)).take pos
      = b.data.take pos := by
    rw [listCopy,
      List.take_append_of_le_length (by rw [List.length_append, htake1]; omega),
      List.take_append_of_le_length (by rw [htake1]; omega),
      List.take_take, Nat.min_eq_left (by omega)]
  have hDpos : (listCopy b.data pos (pos + 1) (b.length - pos)).drop (pos + 1)
      = (b.data.drop pos).take (b.length - pos)
        ++ b.data.drop (pos + 1 + (b.length - pos)) := by
    rw [listCopy, List.append_assoc, List.drop_left' htake1]
  have hsetform : (b.insert pos val).data
      = b.data.take pos ++ some val ::
          ((b.data.drop pos).take (b.length - pos)
            ++ b.data.drop (pos + 1 + (b.length - pos))) := by
    show (listCopy b.data pos (pos + 1) (b.length - pos)).set pos (some val) = _
    rw [List.set_eq_take_append_cons_drop, if_pos (by rw [hcopylen]; omega),
      hTpos, hDpos]
  rw [model, model, hlength, hsetform,
    insertIdx_take_cons_drop _ _ _
      (by rw [List.length_take_of_le (le_of_lt hdata)]; exact hpos)]
  have hlA : (b.data.take pos).length = pos := List.length_take_of_le (by omega)
  rw [List.take_append_eq_append_take, hlA,
    List.take_of_length_le (by rw [hlA]; omega)]
  have hsucc : b.length + 1 - pos = (b.length - pos) + 1 := by omega
  rw [hsucc, List.take_succ_cons,
    List.take_append_of_le_length (by rw [List.length_take, List.length_drop]; omega),
    List.take_take, Nat.min_self, List.drop_take, List.take_take,
    Nat.min_eq_left hpos]

/-- The slot-level effect of `remove` under the precondition that the
`debug_assert` in `remove` checks: the value at `pos` comes out, the
live prefix loses index `pos`, the length bits go down by one. -/
theorem remove_spec (b : CoWecBlock T) (pos : Nat)
    (hpos : pos < b.length) (hdata : b.length ≤ b.data.length) (hx : b.len < 65536) :
    (b.remove pos).1 = b.model.getD pos none ∧
    (b.remove pos).2.length = b.length - 1 ∧
    (b.remove pos).2.model = b.model.eraseIdx pos := by
  have hmod := length_eq_mod b
  have hlen1 : 1 ≤ b.len := by omega
  have hlenr : (b.remove pos).2.len = b.len - 1 := by
    show (b.len + 65535) % 65536 = b.len - 1
    omega
  have hlength : (b.remove pos).2.length = b.length - 1 := by
    rw [length_eq_mod, hlenr]
    omega
  refine ⟨?_, hlength, ?_⟩
  · show b.data.getD pos none = _
    rw [model, List.getD_eq_getElem?_getD, List.getD_eq_getElem?_getD,
      List.getElem?_take, if_pos hpos]
  · rw [model, model, hlength]
    show (listCopy b.data (pos + 1) pos (b.length - pos - 1)).take (b.length - 1)
      = (b.data.take b.length).eraseIdx pos
    have hBlen : ((b.data.drop (pos + 1)).take (b.length - pos - 1)).length
        = b.length - pos - 1 := by
      rw [List.length_take, List.length_drop]
      omega
    have hAlen : (b.data.take pos).length = pos := List.length_take_of_le (by omega)
    have hABlen :
        (b.data.take pos ++ (b.data.drop (pos + 1)).take (b.length - pos - 1)).length
        = b.length - 1 := by
      rw [List.length_append, hAlen, hBlen]
      omega
    rw [listCopy, List.take_append_of_le_length hABlen.ge,
      List.take_of_length_le hABlen.le,
      List.eraseIdx_eq_take_drop_succ, List.take_take,
      Nat.min_eq_left (le_of_lt hpos), List.drop_take]
    have e : b.length - (pos + 1) = b.length - pos - 1 := by omega
    rw [e]

/-- Reading a live slot goes through the abstract content. -/
theorem get_model (b : CoWecBlock T) (i : Nat) (hi : i < b.length) :
    b.get i = b.model.getD i none := by
  rw [get, model, List.getD_eq_getElem?_getD, List.getD_eq_getElem?_getD,
    List.getElem?_take, if_pos hi]

/-- Fold a sequence of `(position, value)` inserts over a block. -/
def runInserts (b : CoWecBlock T) (ops : List (Nat × T)) : CoWecBlock T :=
  ops.foldl (fun acc op => acc.insert op.1 op.2) b

/-- Validity of an insert sequence: at each step the position is in
range, the block is not full, and the new length is encodable (the
conditions `insert` itself debug-asserts). -/
def validSeq : CoWecBlock T → List (Nat × T) → Bool
  | _, [] => true
  | b, op :: rest =>
    decide (b.length < b.capacity) && decide (op.1 ≤ b.length) &&
    decide (b.length < 4095) && decide (b.length < b.data.length) &&
    validSeq (b.insert op.1 op.2) rest

/-- The same sequence of insertions on the abstract list. -/
def absInserts (l : List (Option T)) (ops : List (Nat × T)) : List (Option T) :=
  ops.foldl (fun acc op => acc.insertIdx op.1 (some op.2)) l

theorem runInserts_spec : ∀ (ops : List (Nat × T)) (b : CoWecBlock T),
    validSeq b ops = true → b.len < 65536 →
    (runInserts b ops).length = b.length + ops.length ∧
    (runInserts b ops).model = absInserts b.model ops ∧
    (runInserts b ops).len < 65536
  | [], b, _, hx => by
    refine ⟨by simp [runInserts], by simp [runInserts, absInserts], ?_⟩
    simpa [runInserts] using hx
  | op :: rest, b, hv, hx => by
    simp only [validSeq, Bool.and_eq_true, decide_eq_true_eq] at hv
    obtain ⟨⟨⟨⟨h1, h2⟩, h3⟩, h4⟩, h5⟩ := hv
    have hstep := insert_spec b op.1 op.2 h2 h3 h4 hx
    have hrec := runInserts_spec rest (b.insert op.1 op.2) h5 hstep.2.2.2
    refine ⟨?_, ?_, ?_⟩
    · show (runInserts (b.insert op.1 op.2) rest).length = _
      rw [hrec.1, hstep.1, List.length_cons]
      omega
    · show (runInserts (b.insert op.1 op.2) rest).model = _
      rw [hrec.2.1, hstep.2.1]
      rfl
    · exact hrec.2.2

end CoWecBlock

namespace CoWec

/-- A right handle is not classified left and is nonzero. -/
theorem is_right_elim {p : Nat} (hp : is_right p = true) :
    is_left p = false ∧ p ≠ 0 := by
  rw [is_right, Bool.and_eq_true] at hp
  obtain ⟨ha, hb⟩ := hp
  refine ⟨by simpa using ha, ?_⟩
  simp [is_stub] at hb
  exact hb

/-- The ghost invariant of a shared block: the counter agrees with the
number of live handles, stays in u16 range, and the allocation is freed
exactly when no handle is left. -/
def aliasInv (s : AliasState) : Prop :=
  s.rcell = s.live ∧ s.live ≤ 65535 ∧ (s.freed = true ↔ s.live = 0)

theorem aliasStep_inv (s s1 : AliasState) (op : AliasOp)
    (h : aliasStep s op = some s1) (hi : aliasInv s) : aliasInv s1 := by
  obtain ⟨h1, h2, h3⟩ := hi
  cases op with
  | clone =>
    rw [aliasStep] at h
    by_cases hl : s.live = 0
    · rw [if_pos hl] at h
      cases h
    · rw [if_neg hl] at h
      by_cases hr : s.rcell = 65535
      · simp [RCell.inc_ref, hr] at h
      · simp only [RCell.inc_ref, beq_iff_eq, if_neg hr, if_pos] at h
        obtain rfl := Option.some_inj.mp h
        have hfreed : s.freed = false := by
          cases hf : s.freed with
          | true => exact absurd (h3.mp hf) hl
          | false => rfl
        rw [aliasInv]
        dsimp only
        rw [hfreed]
        refine ⟨by omega, by omega, ?_⟩
        simp
  | drop =>
    rw [aliasStep] at h
    by_cases hl : s.live = 0
    · rw [if_pos hl] at h
      cases h
    · rw [if_neg hl] at h
      obtain rfl := Option.some_inj.mp h
      have hfreed : s.freed = false := by
        cases hf : s.freed with
        | true => exact absurd (h3.mp hf) hl
        | false => rfl
      rw [aliasInv]
      dsimp only
      simp only [RCell.dec_ref, hfreed, Bool.false_or, beq_iff_eq]
      omega

theorem runAlias_inv : ∀ (ops : List AliasOp) (s s' : AliasState),
    runAlias s ops = some s' → aliasInv s → aliasInv s'
  | [], s, s', h, hi => by
    rw [runAlias] at h
    exact (Option.some_inj.mp h) ▸ hi
  | op :: rest, s, s', h, hi => by
    rw [runAlias] at h
    cases hstep : aliasStep s op with
    | none =>
      rw [hstep] at h
      cases h
    | some s1 =>
      rw [hstep] at h
      exact runAlias_inv rest s1 s' h (aliasStep_inv s s1 op hstep hi)

end CoWec

/-! ## The claims -/

/-- Claim C1: for every power-of-two capacity `2 ^ k` accepted as valid
(the classes 1..15, exactly the requests on which the round-trip
`debug_assert_eq!(header.capacity(), capacity)` in `create` passes),
`create` returns a block whose length is 0, whose reported capacity is
exactly the request, and whose reference counter is 1. -/
theorem claim_C1 (T : Type) (k : Nat) (hk1 : 1 ≤ k) (hk2 : k ≤ 15) :
    (CoWecBlock.create T (2 ^ k)).length = 0 ∧
    (CoWecBlock.create T (2 ^ k)).capacity = 2 ^ k ∧
    (CoWecBlock.create T (2 ^ k)).rcell = 1 := by
  obtain ⟨h1, h2, h3, -, -⟩ := CoWecBlock.create_spec T k hk1 hk2
  exact ⟨h1, h2, h3⟩

theorem claim_C1_witness :
    (CoWecBlock.create Nat (2 ^ 3)).length = 0 ∧
    (CoWecBlock.create Nat (2 ^ 3)).capacity = 2 ^ 3 ∧
    (CoWecBlock.create Nat (2 ^ 3)).rcell = 1 :=
  claim_C1 Nat 3 (by decide) (by decide)

/-- Claim C2 counterexample: 1 is a power of two at least the length (0)
of a fresh capacity-2 block, yet `resize` to 1 yields reported capacity
0, not 1 (the exponent 0 lands in the "tight" class). -/
theorem claim_C2_counterexample :
    (1 : Nat) = 2 ^ 0 ∧
    (CoWecBlock.create Nat 2).length ≤ 1 ∧
    ((CoWecBlock.create Nat 2).resize 1).capacity = 0 ∧
    ¬ ((CoWecBlock.create Nat 2).resize 1).capacity = 1 := by
  decide

/-- Claim C2 (amended): for every block and every power-of-two new
capacity `2 ^ k` in the encodable classes 1..15 (not 1 and not `2 ^ 16`
and up) that is at least the current length, `resize` returns a block
whose reported capacity is exactly the request while the length and all
live slots are unchanged. -/
theorem claim_C2 (T : Type) (b : CoWecBlock T) (k : Nat) (hk1 : 1 ≤ k) (hk2 : k ≤ 15)
    (hge : b.length ≤ 2 ^ k) (hdata : b.length ≤ b.data.length) :
    (b.resize (2 ^ k)).capacity = 2 ^ k ∧
    (b.resize (2 ^ k)).length = b.length ∧
    (b.resize (2 ^ k)).model = b.model := by
  obtain ⟨h1, h2, h3, -, -⟩ := CoWecBlock.resize_spec b k hk1 hk2 hge hdata
  exact ⟨h1, h2, h3⟩

theorem claim_C2_witness :
    ((CoWecBlock.create Nat 2).resize (2 ^ 3)).capacity = 2 ^ 3 ∧
    ((CoWecBlock.create Nat 2).resize (2 ^ 3)).length = (CoWecBlock.create Nat 2).length ∧
    ((CoWecBlock.create Nat 2).resize (2 ^ 3)).model = (CoWecBlock.create Nat 2).model :=
  claim_C2 Nat (CoWecBlock.create Nat 2) 3 (by decide) (by decide) (by decide) (by decide)

theorem CoWecBlock.tz_one : CoWecBlock.trailing_zeros 1 = 0 := by decide

theorem CoWecBlock.tz_two : CoWecBlock.trailing_zeros 2 = 1 := by decide

theorem CoWecBlock.tz_65536 : CoWecBlock.trailing_zeros 65536 = 16 := by decide

theorem CoWecBlock.create_one_len (T : Type) : (CoWecBlock.create T 1).len = 0 := by
  show ((CoWecBlock.trailing_zeros 1 % 65536) <<< CoWecBlock.CAP_OFFSET) % 65536 = 0
  rw [CoWecBlock.tz_one]
  decide

theorem CoWecBlock.create_two_len (T : Type) : (CoWecBlock.create T 2).len = 4096 := by
  show ((CoWecBlock.trailing_zeros 2 % 65536) <<< CoWecBlock.CAP_OFFSET) % 65536 = 4096
  rw [CoWecBlock.tz_two]
  decide

theorem CoWecBlock.create_65536_len (T : Type) :
    (CoWecBlock.create T 65536).len = 0 := by
  show ((CoWecBlock.trailing_zeros 65536 % 65536) <<< CoWecBlock.CAP_OFFSET) % 65536 = 0
  rw [CoWecBlock.tz_65536]
  decide

theorem CoWecBlock.resize_one_len (T : Type) :
    ((CoWecBlock.create T 2).resize 1).len = 0 := by
  show ((CoWecBlock.create T 2).len &&& CoWecBlock.LEN_MASK)
      ||| (((CoWecBlock.trailing_zeros 1 % 65536) <<< CoWecBlock.CAP_OFFSET) % 65536) = 0
  rw [CoWecBlock.create_two_len, CoWecBlock.tz_one]
  decide

theorem CoWecBlock.length_of_len_zero {T : Type} {b : CoWecBlock T} (h : b.len = 0) :
    b.length = 0 := by
  rw [CoWecBlock.length_eq_mod, h]

theorem CoWecBlock.capacity_of_len_zero {T : Type} {b : CoWecBlock T} (h : b.len = 0) :
    b.capacity = 0 := by
  rw [CoWecBlock.capacity, CoWecBlock.capBits_eq_div, h, Nat.zero_div, if_pos rfl,
    CoWecBlock.length_eq_mod, h]

/-- Claim C10: the capacity request is only range-checked by debug
assertions; `create` (and `resize`) store the exponent modulo 16 in the
4-bit class field, so a request of 1 (exponent 0) or of `2 ^ 16`
(exponent 16) is stored as class 0 ("tight") and the block reports its
capacity as its current length (0 when fresh) instead of the request,
while requests `2 ^ k` with `1 ≤ k ≤ 15` round-trip exactly. -/
theorem claim_C10 (T : Type) (k : Nat) (hk1 : 1 ≤ k) (hk2 : k ≤ 15) :
    (CoWecBlock.create T 1).len >>> 12 = 0 ∧
    (CoWecBlock.create T 1).capacity = (CoWecBlock.create T 1).length ∧
    (CoWecBlock.create T 1).capacity = 0 ∧
    (CoWecBlock.create T 65536).len >>> 12 = 0 ∧
    (CoWecBlock.create T 65536).capacity = 0 ∧
    ((CoWecBlock.create T 2).resize 1).capacity
      = ((CoWecBlock.create T 2).resize 1).length ∧
    ((CoWecBlock.create T 2).resize 1).capacity = 0 ∧
    (CoWecBlock.create T (2 ^ k)).capacity = 2 ^ k := by
  refine ⟨?_, ?_, ?_, ?_, ?_, ?_, ?_, (CoWecBlock.create_spec T k hk1 hk2).2.1⟩
  · rw [CoWecBlock.create_one_len]
    decide
  · rw [CoWecBlock.capacity_of_len_zero (CoWecBlock.create_one_len T),
      CoWecBlock.length_of_len_zero (CoWecBlock.create_one_len T)]
  · exact CoWecBlock.capacity_of_len_zero (CoWecBlock.create_one_len T)
  · rw [CoWecBlock.create_65536_len]
    decide
  · exact CoWecBlock.capacity_of_len_zero (CoWecBlock.create_65536_len T)
  · rw [CoWecBlock.capacity_of_len_zero (CoWecBlock.resize_one_len T),
      CoWecBlock.length_of_len_zero (CoWecBlock.resize_one_len T)]
  · exact CoWecBlock.capacity_of_len_zero (CoWecBlock.resize_one_len T)

theorem claim_C10_witness :
    (CoWecBlock.create Nat 1).len >>> 12 = 0 ∧
    (CoWecBlock.create Nat 1).capacity = (CoWecBlock.create Nat 1).length ∧
    (CoWecBlock.create Nat 1).capacity = 0 ∧
    (CoWecBlock.create Nat 65536).len >>> 12 = 0 ∧
    (CoWecBlock.create Nat 65536).capacity = 0 ∧
    ((CoWecBlock.create Nat 2).resize 1).capacity
      = ((CoWecBlock.create Nat 2).resize 1).length ∧
    ((CoWecBlock.create Nat 2).resize 1).capacity = 0 ∧
    (CoWecBlock.create Nat (2 ^ 7)).capacity = 2 ^ 7 :=
  claim_C10 Nat 7 (by decide) (by decide)

/-- A well-formed block at the corner of the 12-bit length encoding:
length 4095 (all twelve length bits set), capacity class 13 (8192 slots),
first 4095 slots live. -/
def c3CornerBlock : CoWecBlock Nat :=
  { rcell := 1
    len := 13 * 4096 + 4095
    data := List.replicate 4095 (some 0) ++ List.replicate 4097 none }

/-- Claim C3 counterexample: a block with length 4095 and capacity 8192
satisfies the claim's preconditions (length < capacity, position 4095 ≤
length), yet `insert` does not increment the length by 1: the new length
4096 does not fit the 12-bit length field and the stored length becomes
0 (the release-build outcome; debug builds abort on the
`debug_assert_eq!` guarding the encoding instead). -/
theorem claim_C3_counterexample :
    c3CornerBlock.length < c3CornerBlock.capacity ∧
    c3CornerBlock.length ≤ c3CornerBlock.length ∧
    ¬ (c3CornerBlock.insert c3CornerBlock.length 0).length
        = c3CornerBlock.length + 1 ∧
    (c3CornerBlock.insert c3CornerBlock.length 0).length = 0 := by
  refine ⟨by decide, le_rfl, by decide, by decide⟩

/-- Claim C3 (amended): the stated behaviour additionally needs the
current length below 4095, so that the incremented length still fits the
12-bit length field (the `debug_assert_eq!` in `insert` checks exactly
this).  Then `insert` adds 1 to the length and splices the value in at
`pos` (shifting the tail right), and any valid sequence of inserts grows
the length by its number of inserts and realizes exactly the abstract
repeated insertion, with `get` reading back the final left-to-right
order. -/
theorem claim_C3 (T : Type) (b : CoWecBlock T) (pos : Nat) (v : T)
    (_hcap : b.length < b.capacity) (hpos : pos ≤ b.length)
    (henc : b.length < 4095) (hdata : b.length < b.data.length)
    (hx : b.len < 65536)
    (b0 : CoWecBlock T) (ops : List (Nat × T))
    (hv : CoWecBlock.validSeq b0 ops = true) (hx0 : b0.len < 65536) :
    (b.insert pos v).length = b.length + 1 ∧
    (b.insert pos v).model = b.model.insertIdx pos (some v) ∧
    (CoWecBlock.runInserts b0 ops).length = b0.length + ops.length ∧
    (CoWecBlock.runInserts b0 ops).model = CoWecBlock.absInserts b0.model ops ∧
    (∀ i, i < (CoWecBlock.runInserts b0 ops).length →
      (CoWecBlock.runInserts b0 ops).get i
        = (CoWecBlock.absInserts b0.model ops).getD i none) := by
  have hs := CoWecBlock.insert_spec b pos v hpos henc hdata hx
  have hr := CoWecBlock.runInserts_spec ops b0 hv hx0
  refine ⟨hs.1, hs.2.1, hr.1, hr.2.1, ?_⟩
  intro i hi
  rw [CoWecBlock.get_model _ i hi, hr.2.1]

theorem claim_C3_witness :
    ((CoWecBlock.create Nat 2).insert 0 7).length
      = (CoWecBlock.create Nat 2).length + 1 ∧
    ((CoWecBlock.create Nat 2).insert 0 7).model
      = (CoWecBlock.create Nat 2).model.insertIdx 0 (some 7) ∧
    (CoWecBlock.runInserts (CoWecBlock.create Nat 4) [(0, 1), (1, 2), (0, 3)]).length
      = (CoWecBlock.create Nat 4).length + ([(0, 1), (1, 2), (0, 3)] : List (Nat × Nat)).length ∧
    (CoWecBlock.runInserts (CoWecBlock.create Nat 4) [(0, 1), (1, 2), (0, 3)]).model
      = CoWecBlock.absInserts (CoWecBlock.create Nat 4).model [(0, 1), (1, 2), (0, 3)] ∧
    (∀ i, i < (CoWecBlock.runInserts (CoWecBlock.create Nat 4) [(0, 1), (1, 2), (0, 3)]).length →
      (CoWecBlock.runInserts (CoWecBlock.create Nat 4) [(0, 1), (1, 2), (0, 3)]).get i
        = (CoWecBlock.absInserts (CoWecBlock.create Nat 4).model
            [(0, 1), (1, 2), (0, 3)]).getD i none) :=
  claim_C3 Nat (CoWecBlock.create Nat 2) 0 7
    (by decide) (by decide) (by decide) (by decide) (by decide)
    (CoWecBlock.create Nat 4) [(0, 1), (1, 2), (0, 3)] (by decide) (by decide)

/-- Claim C4: for every block and position `pos < length`, `remove`
returns exactly the value stored at `pos`, shifts the following live
slots one left preserving their order (the live prefix becomes the old
one with index `pos` erased), and decrements the length by exactly 1. -/
theorem claim_C4 (T : Type) (b : CoWecBlock T) (pos : Nat)
    (hpos : pos < b.length) (hdata : b.length ≤ b.data.length)
    (hx : b.len < 65536) :
    (b.remove pos).1 = b.get pos ∧
    (b.remove pos).1 = b.model.getD pos none ∧
    (b.remove pos).2.length = b.length - 1 ∧
    (b.remove pos).2.model = b.model.eraseIdx pos := by
  have hs := CoWecBlock.remove_spec b pos hpos hdata hx
  exact ⟨rfl, hs.1, hs.2.1, hs.2.2⟩

theorem claim_C4_witness :
    (({ rcell := 1, len := 4098, data := [some 10, some 20] } : CoWecBlock Nat).remove 0).1
      = ({ rcell := 1, len := 4098, data := [some 10, some 20] } : CoWecBlock Nat).get 0 ∧
    (({ rcell := 1, len := 4098, data := [some 10, some 20] } : CoWecBlock Nat).remove 0).1
      = ({ rcell := 1, len := 4098, data := [some 10, some 20] } : CoWecBlock Nat).model.getD 0 none ∧
    (({ rcell := 1, len := 4098, data := [some 10, some 20] } : CoWecBlock Nat).remove 0).2.length
      = ({ rcell := 1, len := 4098, data := [some 10, some 20] } : CoWecBlock Nat).length - 1 ∧
    (({ rcell := 1, len := 4098, data := [some 10, some 20] } : CoWecBlock Nat).remove 0).2.model
      = ({ rcell := 1, len := 4098, data := [some 10, some 20] } : CoWecBlock Nat).model.eraseIdx 0 :=
  claim_C4 Nat { rcell := 1, len := 4098, data := [some 10, some 20] } 0
    (by decide) (by decide) (by decide)

/-- Claim C5: cloning a non-stub handle whose counter is below the
maximum returns a second handle with the identical tagged value and
increments the target block's counter; and along any sequence of
clone/drop events starting from a fresh block (counter 1, one live
handle), the counter always equals the number of live handles and the
backing allocation is released exactly when the last live handle has
been dropped (so dropping one of two handles leaves the block alive for
the other). -/
theorem claim_C5 (p : Nat) (h : CoWec.HeapCell)
    (hp : CoWec.is_left p = true ∨ CoWec.is_right p = true)
    (hlt : h.rcell < 65535)
    (ops : List CoWec.AliasOp) (s : CoWec.AliasState)
    (hrun : CoWec.runAlias CoWec.initAlias ops = some s) :
    CoWec.cloneCoWec p h = some (p, { rcell := h.rcell + 1, freed := h.freed }) ∧
    s.rcell = s.live ∧ (s.freed = true ↔ s.live = 0) := by
  constructor
  · have hinc : CoWec.block_inc_ref (p - 1) h
        = some (p - 1, { rcell := h.rcell + 1, freed := h.freed }) := by
      rw [CoWec.block_inc_ref]
      simp only [RCell.inc_ref, beq_iff_eq, if_neg (by omega : ¬ h.rcell = 65535)]
      rfl
    have hinc0 : CoWec.block_inc_ref p h
        = some (p, { rcell := h.rcell + 1, freed := h.freed }) := by
      rw [CoWec.block_inc_ref]
      simp only [RCell.inc_ref, beq_iff_eq, if_neg (by omega : ¬ h.rcell = 65535)]
      rfl
    rcases hp with hp | hp
    · rw [CoWec.cloneCoWec, if_pos hp, hinc0]
      rfl
    · obtain ⟨hnl, hne⟩ := CoWec.is_right_elim hp
      rw [CoWec.cloneCoWec, if_neg (by rw [hnl]; exact Bool.false_ne_true), if_pos hp, hinc]
      have hadd : p - 1 + 1 = p := by omega
      simp [hadd]
  · have hinv := CoWec.runAlias_inv ops CoWec.initAlias s hrun
      ⟨rfl, by decide, by simp [CoWec.initAlias]⟩
    exact ⟨hinv.1, hinv.2.2⟩

theorem claim_C5_witness :
    CoWec.cloneCoWec 2 { rcell := 1, freed := false }
      = some (2, { rcell := 2, freed := false }) ∧
    (CoWec.AliasState.mk 0 0 true).rcell = (CoWec.AliasState.mk 0 0 true).live ∧
    ((CoWec.AliasState.mk 0 0 true).freed = true
      ↔ (CoWec.AliasState.mk 0 0 true).live = 0) :=
  claim_C5 2 { rcell := 1, freed := false } (Or.inl (by decide)) (by decide)
    [CoWec.AliasOp.clone, CoWec.AliasOp.drop, CoWec.AliasOp.drop]
    (CoWec.AliasState.mk 0 0 true) (by decide)

/-- Claim C6: `dispose` runs the element destructor exactly once on each
of the first `len()` slots (each of which is a live, initialized slot)
and on no slot at an index at or past `len()`, destroys the counter, and
releases the backing allocation. -/
theorem claim_C6 (T : Type) (b : CoWecBlock T)
    (hlive : ∀ i, i < b.length → (b.data.getD i none).isSome = true) :
    b.dispose.counterDestroyed = true ∧
    b.dispose.deallocated = true ∧
    (∀ i, i < b.length → b.dispose.droppedSlots.count i = 1) ∧
    (∀ i, b.length ≤ i → b.dispose.droppedSlots.count i = 0) ∧
    (∀ i, i ∈ b.dispose.droppedSlots → (b.data.getD i none).isSome = true) := by
  refine ⟨rfl, rfl, ?_, ?_, ?_⟩
  · intro i hi
    show (List.range b.length).count i = 1
    exact List.count_eq_one_of_mem (List.nodup_range _) (List.mem_range.mpr hi)
  · intro i hi
    show (List.range b.length).count i = 0
    refine List.count_eq_zero_of_not_mem ?_
    rw [List.mem_range]
    omega
  · intro i hi
    exact hlive i (List.mem_range.mp hi)

theorem claim_C6_witness :
    ({ rcell := 1, len := 8194, data := [some 1, some 2, none, none] } :
        CoWecBlock Nat).dispose.counterDestroyed = true ∧
    ({ rcell := 1, len := 8194, data := [some 1, some 2, none, none] } :
        CoWecBlock Nat).dispose.deallocated = true ∧
    (∀ i, i < ({ rcell := 1, len := 8194, data := [some 1, some 2, none, none] } :
        CoWecBlock Nat).length →
      ({ rcell := 1, len := 8194, data := [some 1, some 2, none, none] } :
        CoWecBlock Nat).dispose.droppedSlots.count i = 1) ∧
    (∀ i, ({ rcell := 1, len := 8194, data := [some 1, some 2, none, none] } :
        CoWecBlock Nat).length ≤ i →
      ({ rcell := 1, len := 8194, data := [some 1, some 2, none, none] } :
        CoWecBlock Nat).dispose.droppedSlots.count i = 0) ∧
    (∀ i, i ∈ ({ rcell := 1, len := 8194, data := [some 1, some 2, none, none] } :
        CoWecBlock Nat).dispose.droppedSlots →
      (({ rcell := 1, len := 8194, data := [some 1, some 2, none, none] } :
        CoWecBlock Nat).data.getD i none).isSome = true) :=
  claim_C6 Nat { rcell := 1, len := 8194, data := [some 1, some 2, none, none] }
    (by decide)

/-- Claim C7: the `RCell` counter capability: `inc_ref` returns false and
leaves the value unchanged exactly when the counter is at 65535, and
otherwise adds one and returns true; `dec_ref` removes one reference and
returns true exactly when the resulting count is zero; a fresh counter
starts at 1. -/
theorem claim_C7 (old : Nat) (hx : old < 65536) :
    RCell.init = 1 ∧
    ((RCell.inc_ref old).1 = false ↔ old = 65535) ∧
    (old = 65535 → (RCell.inc_ref old).2 = old) ∧
    (¬ old = 65535 → (RCell.inc_ref old).1 = true ∧ (RCell.inc_ref old).2 = old + 1) ∧
    (1 ≤ old → (RCell.dec_ref old).2 = old - 1) ∧
    ((RCell.dec_ref old).1 = true ↔ (RCell.dec_ref old).2 = 0) := by
  refine ⟨rfl, ?_, ?_, ?_, ?_, ?_⟩
  · by_cases hold : old = 65535 <;> simp [RCell.inc_ref, hold]
  · intro hold
    simp [RCell.inc_ref, hold]
  · intro hold
    simp [RCell.inc_ref, hold]
  · intro hold
    show (old + 65535) % 65536 = old - 1
    omega
  · simp only [RCell.dec_ref, beq_iff_eq]
    omega

theorem claim_C7_witness :
    RCell.init = 1 ∧
    ((RCell.inc_ref 5).1 = false ↔ (5 : Nat) = 65535) ∧
    ((5 : Nat) = 65535 → (RCell.inc_ref 5).2 = 5) ∧
    (¬ (5 : Nat) = 65535 → (RCell.inc_ref 5).1 = true ∧ (RCell.inc_ref 5).2 = 5 + 1) ∧
    ((1 : Nat) ≤ 5 → (RCell.dec_ref 5).2 = 5 - 1) ∧
    ((RCell.dec_ref 5).1 = true ↔ (RCell.dec_ref 5).2 = 0) :=
  claim_C7 5 (by decide)

/-- Claim C8: cloning a left or right handle whose block counter is
saturated (65535) does not produce a deep copy: it reaches the
`unimplemented!("Make an internal copy")` panic (modelled as `none`), so
no handle value is ever returned to the caller. -/
theorem claim_C8 (p : Nat) (h : CoWec.HeapCell)
    (hp : CoWec.is_left p = true ∨ CoWec.is_right p = true)
    (hsat : h.rcell = 65535) :
    CoWec.cloneCoWec p h = none := by
  have hinc : ∀ q, CoWec.block_inc_ref q h = none := by
    intro q
    rw [CoWec.block_inc_ref]
    simp [RCell.inc_ref, hsat]
  rcases hp with hp | hp
  · rw [CoWec.cloneCoWec, if_pos hp, hinc]
    rfl
  · obtain ⟨hnl, -⟩ := CoWec.is_right_elim hp
    rw [CoWec.cloneCoWec, if_neg (by rw [hnl]; exact Bool.false_ne_true), if_pos hp, hinc]
    rfl

theorem claim_C8_witness :
    CoWec.cloneCoWec 3 { rcell := 65535, freed := false } = none :=
  claim_C8 3 { rcell := 65535, freed := false } (Or.inr (by decide)) rfl

/-- Claim C9: every handle value is classified by exactly one of
`is_stub`/`is_left`/`is_right`; `new_stub` is a stub and nothing else;
`new_left` on a block address (nonzero, 2-aligned) is left and nothing
else; `new_right` is right and nothing else; cloning a stub yields
another stub and touches no counter; dropping a stub frees nothing. -/
theorem claim_C9 (p addr : Nat) (h : CoWec.HeapCell)
    (haddr0 : addr ≠ 0) (haddr2 : addr % 2 = 0) :
    ((CoWec.is_stub p = true ∨ CoWec.is_left p = true ∨ CoWec.is_right p = true) ∧
      (CoWec.is_stub p = true → CoWec.is_left p = false ∧ CoWec.is_right p = false) ∧
      (CoWec.is_left p = true → CoWec.is_stub p = false ∧ CoWec.is_right p = false) ∧
      (CoWec.is_right p = true → CoWec.is_stub p = false ∧ CoWec.is_left p = false)) ∧
    (CoWec.is_stub CoWec.new_stub = true ∧ CoWec.is_left CoWec.new_stub = false ∧
      CoWec.is_right CoWec.new_stub = false) ∧
    (CoWec.is_left (CoWec.new_left addr) = true ∧
      CoWec.is_stub (CoWec.new_left addr) = false ∧
      CoWec.is_right (CoWec.new_left addr) = false) ∧
    (CoWec.is_right (CoWec.new_right addr) = true ∧
      CoWec.is_stub (CoWec.new_right addr) = false ∧
      CoWec.is_left (CoWec.new_right addr) = false) ∧
    CoWec.cloneCoWec CoWec.new_stub h = some (CoWec.new_stub, h) ∧
    CoWec.dropCoWec CoWec.new_stub h = h := by
  refine ⟨⟨?_, ?_, ?_, ?_⟩, ⟨rfl, rfl, rfl⟩, ?_, ?_, rfl, rfl⟩
  · by_cases h0 : p = 0
    · exact Or.inl (by simp [CoWec.is_stub, h0])
    · by_cases h2 : p % 2 = 0
      · exact Or.inr (Or.inl (by simp [CoWec.is_left, CoWec.is_stub, h0, h2]))
      · exact Or.inr (Or.inr (by simp [CoWec.is_right, CoWec.is_left, CoWec.is_stub, h0, h2]))
  · intro hs
    simp [CoWec.is_stub] at hs
    simp [CoWec.is_left, CoWec.is_right, CoWec.is_stub, hs]
  · intro hl
    simp [CoWec.is_left, CoWec.is_stub] at hl
    simp [CoWec.is_right, CoWec.is_left, CoWec.is_stub, hl.1, hl.2]
  · intro hr
    obtain ⟨hnl, hne⟩ := CoWec.is_right_elim hr
    simp [CoWec.is_stub, hne, hnl]
  · simp [CoWec.new_left, CoWec.is_left, CoWec.is_right, CoWec.is_stub, haddr0, haddr2]
  · have ho : (addr + 1) % 2 = 1 := by omega
    simp [CoWec.new_right, CoWec.is_left, CoWec.is_right, CoWec.is_stub, ho]

theorem claim_C9_witness :
    ((CoWec.is_stub 7 = true ∨ CoWec.is_left 7 = true ∨ CoWec.is_right 7 = true) ∧
      (CoWec.is_stub 7 = true → CoWec.is_left 7 = false ∧ CoWec.is_right 7 = false) ∧
      (CoWec.is_left 7 = true → CoWec.is_stub 7 = false ∧ CoWec.is_right 7 = false) ∧
      (CoWec.is_right 7 = true → CoWec.is_stub 7 = false ∧ CoWec.is_left 7 = false)) ∧
    (CoWec.is_stub CoWec.new_stub = true ∧ CoWec.is_left CoWec.new_stub = false ∧
      CoWec.is_right CoWec.new_stub = false) ∧
    (CoWec.is_left (CoWec.new_left 4) = true ∧
      CoWec.is_stub (CoWec.new_left 4) = false ∧
      CoWec.is_right (CoWec.new_left 4) = false) ∧
    (CoWec.is_right (CoWec.new_right 4) = true ∧
      CoWec.is_stub (CoWec.new_right 4) = false ∧
      CoWec.is_left (CoWec.new_right 4) = false) ∧
    CoWec.cloneCoWec CoWec.new_stub { rcell := 3, freed := false }
      = some (CoWec.new_stub, { rcell := 3, freed := false }) ∧
    CoWec.dropCoWec CoWec.new_stub { rcell := 3, freed := false }
      = { rcell := 3, freed := false } :=
  claim_C9 7 4 { rcell := 3, freed := false } (by decide) (by decide)
